import Mathlib

/-!
Shallow embedding of `src/simple-vector/simple_vector.h` (class `SimpleVector<Type>`
and its free comparison operators).

The backing buffer of the C++ class is an `ArrayPtr<Type>` (header `array_ptr.h`,
not part of this repository).  Modelled from the spec: the raw-buffer collaborator
provides `allocate(n)` yielding an owned buffer of `n` default-constructed
elements, indexed element access, and `swap`.  We embed a buffer as the `List`
of its slots, so `ArrayPtr<Type>(n)` becomes `List.replicate n default`.

Machine pointers `Type*` into a buffer are embedded as `Nat` indices
(`pos - items_.Get()` in the source is exactly that index).  Every raw buffer
read or write is checked against the physical length of the buffer: an access
outside the allocation (undefined behaviour in C++) makes the embedded
operation return `none`.  `size_t` arithmetic in the source never overflows on
the inputs considered (sizes only grow by small steps from 0), so `Nat` is
used directly.
-/

/-- One checked write into a raw buffer: `buf[i] = x`.  `none` when the write
would land outside the allocation (undefined behaviour in C++). -/
def writeSlot {α : Type} (l : List α) (i : Nat) (x : α) : Option (List α) :=
  if i < l.length then some (l.set i x) else none

/-- `std::copy(src + a, src + a + n, dst + d)` / `std::move(...)` between two
buffers (the source is a distinct allocation from the destination, as in every
call site of the header).  Element-wise, left to right, each access checked. -/
def copyRange {α : Type} (src : List α) (a : Nat) (n : Nat) (dst : List α) (d : Nat) :
    Option (List α) :=
  match n with
  | 0 => some dst
  | m + 1 =>
    match src.get? a with
    | none => none
    | some x =>
      match writeSlot dst d x with
      | none => none
      | some dst2 => copyRange src (a + 1) m dst2 (d + 1)

/-- `std::copy_backward(buf + first, buf + first + n, buf + d_last)` /
`std::move_backward(...)` inside a single buffer: copies the `n` elements
right-to-left, ending at `d_last`.  Right-to-left order is what makes the
overlapping right-shift in `Insert` read the original values. -/
def copyBackward {α : Type} (l : List α) (first : Nat) (n : Nat) (d_last : Nat) :
    Option (List α) :=
  match n with
  | 0 => some l
  | m + 1 =>
    match l.get? (first + m) with
    | none => none
    | some x =>
      match writeSlot l (d_last - 1) x with
      | none => none
      | some l2 => copyBackward l2 first m (d_last - 1)

/-- `std::fill(buf + a, buf + a + n, x)`, and the private member
`SimpleVector::Fill(first, last)` with `x = Type{}`. -/
def setRange {α : Type} (l : List α) (a : Nat) (n : Nat) (x : α) : Option (List α) :=
  match n with
  | 0 => some l
  | m + 1 =>
    match writeSlot l a x with
    | none => none
    | some l2 => setRange l2 (a + 1) m x

/-- `std::equal(l1 + a, l1 + a + n, l2 + c)`: three-iterator form, compares `n`
slots; `none` when a read leaves either allocation. -/
def stdEqual {α : Type} [BEq α] (l1 : List α) (a : Nat) (n : Nat) (l2 : List α) (c : Nat) :
    Option Bool :=
  match n with
  | 0 => some true
  | m + 1 =>
    match l1.get? a, l2.get? c with
    | some x, some y => if x == y then stdEqual l1 (a + 1) m l2 (c + 1) else some false
    | _, _ => none

/-- The state of a `SimpleVector<Type>`: the physical slots of the owned
`ArrayPtr` buffer, and the two counters. -/
structure SimpleVector (α : Type) where
  items_ : List α
  size_ : Nat
  capacity_ : Nat
deriving DecidableEq

namespace SimpleVector

variable {α : Type} [Inhabited α]

/-- `GetSize()`. -/
def GetSize (v : SimpleVector α) : Nat :=
  v.size_

/-- `GetCapacity()`. -/
def GetCapacity (v : SimpleVector α) : Nat :=
  v.capacity_

/-- `IsEmpty()`. -/
def IsEmpty (v : SimpleVector α) : Bool :=
  v.size_ == 0

/-- The live range `[begin(), end())`: the logical content of the container. -/
def liveRange (v : SimpleVector α) : List α :=
  v.items_.take v.size_

/-- The state invariant the header maintains between operations: the counters
satisfy `size_ <= capacity_` and the owned buffer physically holds exactly
`capacity_` slots. -/
abbrev Wf (v : SimpleVector α) : Prop :=
  v.size_ ≤ v.capacity_ ∧ v.items_.length = v.capacity_

/-- Default constructor `SimpleVector()`. -/
def mkDefault : SimpleVector α :=
  ⟨[], 0, 0⟩

/-- Constructor `SimpleVector(size, value)`:
`items_(size)` then `std::fill(items_.Get(), items_.Get() + size, value)`. -/
def mkSizeValue (n : Nat) (value : α) : Option (SimpleVector α) :=
  (setRange (List.replicate n (default : α)) 0 n value).map fun b => ⟨b, n, n⟩

/-- Constructor `SimpleVector(std::initializer_list)`:
`items_(init.size())` then `std::copy(init.begin(), init.end(), items_.Get())`. -/
def mkInitList (init : List α) : Option (SimpleVector α) :=
  (copyRange init 0 init.length (List.replicate init.length (default : α)) 0).map
    fun b => ⟨b, init.length, init.length⟩

/-- Copy constructor `SimpleVector(const SimpleVector& other)`:
`items_(other.GetSize())`, `size_ = other.GetSize()`,
`capacity_ = other.GetCapacity()`, then
`std::copy(other.begin(), other.end(), items_.Get())`.
Note the buffer is allocated with `other.GetSize()` slots while the recorded
capacity is `other.GetCapacity()`. -/
def copyCtor (other : SimpleVector α) : Option (SimpleVector α) :=
  (copyRange other.items_ 0 other.size_ (List.replicate other.size_ (default : α)) 0).map
    fun b => ⟨b, other.size_, other.capacity_⟩

/-- `swap(SimpleVector& other)`: exchanges `capacity_`, `size_` and the
buffers of the two objects; returns the pair (this, other) after the exchange. -/
def swap (v other : SimpleVector α) : SimpleVector α × SimpleVector α :=
  (⟨other.items_, other.size_, other.capacity_⟩, ⟨v.items_, v.size_, v.capacity_⟩)

/-- Move constructor `SimpleVector(SimpleVector&& other)`:
`items_(other.GetSize())` (so `size_ = 0`, `capacity_ = 0` with a fresh buffer
of `other.GetSize()` default slots), then `swap(other)`.  Returns
(the constructed vector, the moved-from `other`). -/
def moveCtor (other : SimpleVector α) : SimpleVector α × SimpleVector α :=
  swap ⟨List.replicate other.size_ (default : α), 0, 0⟩ other

/-- `Reserve(new_capacity)`. -/
def Reserve (v : SimpleVector α) (new_capacity : Nat) : Option (SimpleVector α) :=
  if new_capacity > v.capacity_ then
    match copyRange v.items_ 0 v.size_ (List.replicate new_capacity (default : α)) 0 with
    | none => none
    | some b => some { v with items_ := b, capacity_ := new_capacity }
  else some v

/-- Constructor `SimpleVector(ReserveProxyObj)`: default-initialised members,
then `Reserve(reserve_items.GetCapacity())`.  The free function
`Reserve(size_t)` wrapping the capacity into a `ReserveProxyObj` is the
identity on the carried number. -/
def mkReserve (cap : Nat) : Option (SimpleVector α) :=
  Reserve mkDefault cap

/-- `Clear()`. -/
def Clear (v : SimpleVector α) : SimpleVector α :=
  { v with size_ := 0 }

/-- `operator=(const SimpleVector& rhs)`: the guard `&items_ != &rhs.items_`
compares the addresses of the two `items_` members, which coincide exactly
when `lhs` and `rhs` are the same object; `sameObject` embeds that address
identity.  When the objects differ, a copy of `rhs` is constructed and swapped
into `lhs`. -/
def assign (lhs rhs : SimpleVector α) (sameObject : Bool) : Option (SimpleVector α) :=
  if sameObject then some lhs
  else (copyCtor rhs).map fun c => (swap lhs c).1

/-- `At(index)` outcomes: the returned reference's element, the thrown
`std::out_of_range`, or a read outside the allocated buffer (UB in C++,
unreachable from well-formed states). -/
inductive AtResult (α : Type) where
  | ok : α → AtResult α
  | outOfRange : AtResult α
  | bufferOOB : AtResult α
deriving DecidableEq

/-- `At(index)`: throws `std::out_of_range` when `index >= size_`, otherwise
returns `items_[index]`.  `At` reads the state and never modifies it. -/
def At (v : SimpleVector α) (index : Nat) : AtResult α :=
  if index ≥ v.size_ then AtResult.outOfRange
  else
    match v.items_.get? index with
    | some x => AtResult.ok x
    | none => AtResult.bufferOOB

/-- `Resize(new_size)`, including the private `Fill` helper calls:
branch 1 allocates `max(new_size, capacity_ * 2)` default slots, fills them
all, then moves `[begin(), end())` in; branch 2 runs
`Fill(end(), end() + new_size)`, i.e. writes `new_size` default values
starting at index `size_`; branch 3 shrinks `size_`. -/
def Resize (v : SimpleVector α) (new_size : Nat) : Option (SimpleVector α) :=
  if new_size > v.capacity_ then
    let new_capacity := max new_size (v.capacity_ * 2)
    match setRange (List.replicate new_capacity (default : α)) 0 new_capacity
        (default : α) with
    | none => none
    | some filled =>
      match copyRange v.items_ 0 v.size_ filled 0 with
      | none => none
      | some moved => some ⟨moved, new_size, new_capacity⟩
  else if new_size ≤ v.capacity_ ∧ new_size > v.size_ then
    match setRange v.items_ v.size_ new_size (default : α) with
    | none => none
    | some filled => some { v with items_ := filled, size_ := new_size }
  else if new_size ≤ v.capacity_ ∧ new_size < v.size_ then
    some { v with size_ := new_size }
  else
    some v

/-- `PushBack(item)` (the copy and move overloads are identical over a value
model): when full, `Resize(size_ + 1)` then `items_[size_ - 1] = item`
(`size_` already updated by `Resize`); otherwise `items_[size_] = item` and
`++size_`. -/
def PushBack (v : SimpleVector α) (item : α) : Option (SimpleVector α) :=
  if v.size_ = v.capacity_ then
    match Resize v (v.size_ + 1) with
    | none => none
    | some w =>
      match writeSlot w.items_ (w.size_ - 1) item with
      | none => none
      | some b => some { w with items_ := b }
  else
    match writeSlot v.items_ v.size_ item with
    | none => none
    | some b => some { v with items_ := b, size_ := v.size_ + 1 }

/-- `Insert(pos, value)` (copy and move overloads identical over a value
model); `index = pos - items_.Get()`.  When full, `Resize(size_ + 1)` and then
`copy_backward(items_ + index, items_ + size_, items_ + size_ + 1)` with
`size_` the post-resize size; otherwise the same shift with the old `size_`
followed by `++size_`.  Returns the new state and `&items_[index]` as an
index. -/
def Insert (v : SimpleVector α) (index : Nat) (value : α) :
    Option (SimpleVector α × Nat) :=
  if v.size_ = v.capacity_ then
    match Resize v (v.size_ + 1) with
    | none => none
    | some w =>
      match copyBackward w.items_ index (w.size_ - index) (w.size_ + 1) with
      | none => none
      | some b =>
        match writeSlot b index value with
        | none => none
        | some b2 => some ({ w with items_ := b2 }, index)
  else
    match copyBackward v.items_ index (v.size_ - index) (v.size_ + 1) with
    | none => none
    | some b =>
      match writeSlot b index value with
      | none => none
      | some b2 => some ({ v with items_ := b2, size_ := v.size_ + 1 }, index)

/-- `PopBack()`: `--size_` (precondition `!IsEmpty()` via `assert`). -/
def PopBack (v : SimpleVector α) : SimpleVector α :=
  { v with size_ := v.size_ - 1 }

/-- `Erase(pos)`; `index = pos - items_.Get()`.  Allocates a fresh buffer of
`size_` (the pre-erase size) default slots, moves `[0, index)` and
`[index + 1, size_)` into it, swaps it in, `--size_`, and returns
`&items_[index]` as an index.  `capacity_` is not written. -/
def Erase (v : SimpleVector α) (index : Nat) : Option (SimpleVector α × Nat) :=
  match copyRange v.items_ 0 index (List.replicate v.size_ (default : α)) 0 with
  | none => none
  | some b1 =>
    match copyRange v.items_ (index + 1) (v.size_ - (index + 1)) b1 index with
    | none => none
    | some b2 => some (⟨b2, v.size_ - 1, v.capacity_⟩, index)

end SimpleVector

/-- Free `operator==(lhs, rhs)`:
`std::equal(lhs.begin(), lhs.end(), rhs.begin())` — the three-iterator form,
reading `lhs.GetSize()` slots from each buffer. -/
def vecEq {α : Type} [BEq α] (lhs rhs : SimpleVector α) : Option Bool :=
  stdEqual lhs.items_ 0 lhs.size_ rhs.items_ 0

/-! General lemmas about the buffer primitives. -/

theorem writeSlot_eq {α : Type} (l : List α) (i : Nat) (x : α) (h : i < l.length) :
    writeSlot l i x = some (l.set i x) := by
  simp [writeSlot, h]

theorem set_take_succ {α : Type} (l : List α) (d : Nat) (x : α) (h : d < l.length) :
    (l.set d x).take (d + 1) = l.take d ++ [x] := by
  have h2 : d < (l.set d x).length := by simpa using h
  have h3 : (l.take d).set d x = l.take d :=
    List.set_eq_of_length_le (by rw [List.length_take]; omega)
  rw [← List.take_concat_get (l.set d x) d h2, List.concat_eq_append, List.set_take, h3]
  simp

theorem replicate_set_self {α : Type} (n : Nat) (x : α) :
    ∀ (i : Nat), (List.replicate n x).set i x = List.replicate n x := by
  induction n with
  | zero => intro i; rfl
  | succ m ih =>
    intro i
    cases i with
    | zero => simp [List.replicate_succ]
    | succ j => simp [List.replicate_succ, List.set_cons_succ, ih j]

theorem setRange_replicate {α : Type} (k : Nat) (x : α) :
    ∀ (n a : Nat), a + n ≤ k → setRange (List.replicate k x) a n x = some (List.replicate k x) := by
  intro n
  induction n with
  | zero => intro a _; rfl
  | succ m ih =>
    intro a h
    have ha : a < (List.replicate k x).length := by simp; omega
    have hw : writeSlot (List.replicate k x) a x = some (List.replicate k x) := by
      rw [writeSlot_eq _ _ _ ha, replicate_set_self]
    simp only [setRange, hw]
    exact ih (a + 1) (by omega)

theorem copyRange_eq {α : Type} (src : List α) :
    ∀ (n a d : Nat) (dst : List α), a + n ≤ src.length → d + n ≤ dst.length →
      copyRange src a n dst d =
        some (dst.take d ++ (src.drop a).take n ++ dst.drop (d + n)) := by
  intro n
  induction n with
  | zero =>
    intro a d dst h1 h2
    simp [copyRange, List.take_append_drop]
  | succ m ih =>
    intro a d dst h1 h2
    have ha : a < src.length := by omega
    have hd : d < dst.length := by omega
    have hget : src.get? a = some src[a] := by
      rw [List.get?_eq_getElem?, List.getElem?_eq_getElem ha]
    have hw : writeSlot dst d src[a] = some (dst.set d src[a]) := writeSlot_eq _ _ _ hd
    have hrec := ih (a + 1) (d + 1) (dst.set d src[a]) (by omega) (by rw [List.length_set]; omega)
    have step : copyRange src a (m + 1) dst d = copyRange src (a + 1) m (dst.set d src[a]) (d + 1) := by
      simp only [copyRange, hget, hw]
    rw [step, hrec]
    have e1 : (dst.set d src[a]).take (d + 1) = dst.take d ++ [src[a]] :=
      set_take_succ dst d src[a] hd
    have e2 : (dst.set d src[a]).drop (d + 1 + m) = dst.drop (d + 1 + m) := by
      rw [List.drop_set, if_pos (by omega)]
    have e3 : (src.drop a).take (m + 1) = src[a] :: (src.drop (a + 1)).take m := by
      rw [List.drop_eq_getElem_cons ha, List.take_succ_cons]
    have e4 : d + 1 + m = d + (m + 1) := by omega
    rw [e1, e2, e3, e4]
    simp

namespace SimpleVector

variable {α : Type} [Inhabited α]

/-- `Resize` in its growth branch (`new_size > capacity_`): the new capacity
is `max new_size (capacity_ * 2)`, the live range is preserved at the front of
the new buffer and the rest of the buffer is default-valued. -/
theorem Resize_grow (v : SimpleVector α) (ns : Nat) (hwf : v.Wf) (hg : v.capacity_ < ns) :
    v.Resize ns =
      some ⟨v.liveRange ++ List.replicate (max ns (v.capacity_ * 2) - v.size_) (default : α),
        ns, max ns (v.capacity_ * 2)⟩ := by
  obtain ⟨h1, h2⟩ := hwf
  have hle : v.size_ ≤ max ns (v.capacity_ * 2) := by omega
  have hfill : setRange (List.replicate (max ns (v.capacity_ * 2)) (default : α)) 0
      (max ns (v.capacity_ * 2)) (default : α)
      = some (List.replicate (max ns (v.capacity_ * 2)) (default : α)) :=
    setRange_replicate _ _ _ 0 (by omega)
  have hcopy : copyRange v.items_ 0 v.size_
      (List.replicate (max ns (v.capacity_ * 2)) (default : α)) 0
      = some (v.items_.take v.size_ ++
          List.replicate (max ns (v.capacity_ * 2) - v.size_) (default : α)) := by
    rw [copyRange_eq v.items_ v.size_ 0 0 _ (by omega) (by simp [List.length_replicate]; omega)]
    simp [List.drop_replicate]
  simp only [Resize, gt_iff_lt, if_pos hg, hfill, hcopy, liveRange]

/-- C6: for every well-formed vector and value, `PushBack` grows via
`Resize(size+1)` exactly when `size == capacity` (capacity becoming
`max(size+1, 2*capacity)`, otherwise unchanged), appends the value to the live
range keeping earlier elements, and increments the size; and the concrete
scenario: starting empty and pushing 1, 2, 3 yields size 3, content
`[1, 2, 3]`, and the capacity sequence 0, 1, 2, 4. -/
theorem pushBack_spec (v : SimpleVector α) (x : α) (hwf : v.Wf) :
    (∃ w, v.PushBack x = some w ∧ w.GetSize = v.GetSize + 1 ∧
        w.liveRange = v.liveRange ++ [x] ∧
        w.GetCapacity = (if v.size_ = v.capacity_ then max (v.size_ + 1) (v.capacity_ * 2)
          else v.capacity_) ∧ w.Wf) ∧
      (PushBack (mkDefault : SimpleVector Nat) 1 = some ⟨[1], 1, 1⟩ ∧
        PushBack (⟨[1], 1, 1⟩ : SimpleVector Nat) 2 = some ⟨[1, 2], 2, 2⟩ ∧
        PushBack (⟨[1, 2], 2, 2⟩ : SimpleVector Nat) 3 = some ⟨[1, 2, 3, 0], 3, 4⟩ ∧
        GetSize (⟨[1, 2, 3, 0], 3, 4⟩ : SimpleVector Nat) = 3 ∧
        liveRange (⟨[1, 2, 3, 0], 3, 4⟩ : SimpleVector Nat) = [1, 2, 3] ∧
        GetCapacity (mkDefault : SimpleVector Nat) = 0 ∧
        GetCapacity (⟨[1], 1, 1⟩ : SimpleVector Nat) = 1 ∧
        GetCapacity (⟨[1, 2], 2, 2⟩ : SimpleVector Nat) = 2 ∧
        GetCapacity (⟨[1, 2, 3, 0], 3, 4⟩ : SimpleVector Nat) = 4) := by
  refine ⟨?_, by decide⟩
  obtain ⟨h1, h2⟩ := hwf
  have hlive : v.liveRange.length = v.size_ := by
    rw [liveRange, List.length_take]; omega
  by_cases hfull : v.size_ = v.capacity_
  · have hres := Resize_grow v (v.size_ + 1) ⟨h1, h2⟩ (by omega)
    have hlen : (v.liveRange ++
        List.replicate (max (v.size_ + 1) (v.capacity_ * 2) - v.size_) (default : α)).length
        = max (v.size_ + 1) (v.capacity_ * 2) := by
      rw [List.length_append, hlive, List.length_replicate]; omega
    have hw : writeSlot (v.liveRange ++
        List.replicate (max (v.size_ + 1) (v.capacity_ * 2) - v.size_) (default : α)) v.size_ x
        = some ((v.liveRange ++
            List.replicate (max (v.size_ + 1) (v.capacity_ * 2) - v.size_) (default : α)).set
              v.size_ x) :=
      writeSlot_eq _ _ _ (by rw [hlen]; omega)
    simp only [PushBack, if_pos hfull, hres, Nat.add_sub_cancel, hw]
    refine ⟨_, rfl, rfl, ?_, ?_, ?_, ?_⟩
    · show ((v.liveRange ++
          List.replicate (max (v.size_ + 1) (v.capacity_ * 2) - v.size_) (default : α)).set
            v.size_ x).take (v.size_ + 1) = v.liveRange ++ [x]
      rw [set_take_succ _ _ _ (by rw [hlen]; omega), List.take_left' hlive]
    · rfl
    · show v.size_ + 1 ≤ max (v.size_ + 1) (v.capacity_ * 2)
      omega
    · show ((v.liveRange ++
          List.replicate (max (v.size_ + 1) (v.capacity_ * 2) - v.size_) (default : α)).set
            v.size_ x).length = max (v.size_ + 1) (v.capacity_ * 2)
      rw [List.length_set, hlen]
  · have hlt : v.size_ < v.capacity_ := lt_of_le_of_ne h1 hfull
    have hw : writeSlot v.items_ v.size_ x = some (v.items_.set v.size_ x) :=
      writeSlot_eq _ _ _ (by omega)
    simp only [PushBack, if_neg hfull, hw]
    refine ⟨_, rfl, rfl, ?_, ?_, ?_, ?_⟩
    · show (v.items_.set v.size_ x).take (v.size_ + 1) = v.liveRange ++ [x]
      rw [set_take_succ _ _ _ (by omega)]
      rfl
    · rfl
    · show v.size_ + 1 ≤ v.capacity_
      omega
    · show (v.items_.set v.size_ x).length = v.capacity_
      rw [List.length_set, h2]

/-- C3 (amended): for every well-formed vector and every live position
`i < size`, `Erase` removes the element at `i`, shifts the subsequent elements
left by one preserving order, decrements the size, and returns the index of
the slot now occupying the erased position; afterwards `GetCapacity()` is
unchanged (it does NOT shrink to the new size), while the backing buffer is
reallocated to exactly the pre-erase size slots. -/
theorem erase_amended_spec (v : SimpleVector α) (i : Nat) (hwf : v.Wf) (hi : i < v.size_) :
    ∃ w, v.Erase i = some (w, i) ∧ w.GetSize = v.GetSize - 1 ∧
      w.GetCapacity = v.GetCapacity ∧ w.items_.length = v.size_ ∧
      w.liveRange = v.liveRange.take i ++ v.liveRange.drop (i + 1) := by
  obtain ⟨h1, h2⟩ := hwf
  have hA : (v.items_.take i).length = i := List.length_take_of_le (by omega)
  have hT : ((v.items_.drop (i + 1)).take (v.size_ - (i + 1))).length = v.size_ - (i + 1) :=
    List.length_take_of_le (by rw [List.length_drop]; omega)
  have hc1 : copyRange v.items_ 0 i (List.replicate v.size_ (default : α)) 0
      = some (v.items_.take i ++ List.replicate (v.size_ - i) (default : α)) := by
    rw [copyRange_eq v.items_ i 0 0 _ (by omega) (by rw [List.length_replicate]; omega)]
    simp [List.drop_replicate]
  have hc2 : copyRange v.items_ (i + 1) (v.size_ - (i + 1))
      (v.items_.take i ++ List.replicate (v.size_ - i) (default : α)) i
      = some ((v.items_.take i ++ (v.items_.drop (i + 1)).take (v.size_ - (i + 1))) ++
          [(default : α)]) := by
    rw [copyRange_eq v.items_ (v.size_ - (i + 1)) (i + 1) i _ (by omega)
        (by rw [List.length_append, hA, List.length_replicate]; omega)]
    congr 1
    rw [List.take_left' hA]
    have e1 : i + (v.size_ - (i + 1)) = (v.items_.take i).length + (v.size_ - (i + 1)) := by
      rw [hA]
    rw [e1, List.drop_append, List.drop_replicate]
    have e2 : v.size_ - i - (v.size_ - (i + 1)) = 1 := by omega
    rw [e2, List.replicate_one]
  simp only [Erase, hc1, hc2]
  refine ⟨_, rfl, rfl, rfl, ?_, ?_⟩
  · show ((v.items_.take i ++ (v.items_.drop (i + 1)).take (v.size_ - (i + 1))) ++
        [(default : α)]).length = v.size_
    rw [List.length_append, List.length_append, hA, hT, List.length_singleton]
    omega
  · show ((v.items_.take i ++ (v.items_.drop (i + 1)).take (v.size_ - (i + 1))) ++
        [(default : α)]).take (v.size_ - 1)
      = v.liveRange.take i ++ v.liveRange.drop (i + 1)
    have hAB : (v.items_.take i ++ (v.items_.drop (i + 1)).take (v.size_ - (i + 1))).length
        = v.size_ - 1 := by
      rw [List.length_append, hA, hT]; omega
    rw [List.take_left' hAB]
    have e3 : v.liveRange.take i = v.items_.take i := by
      rw [liveRange, List.take_take]
      congr 1
      omega
    have e4 : v.liveRange.drop (i + 1) = (v.items_.drop (i + 1)).take (v.size_ - (i + 1)) := by
      rw [liveRange, List.drop_take]
    rw [e3, e4]

/-- C7: for every well-formed vector, `At(i)` fails with the out-of-range
error exactly when `i >= size`, and for `i < size` it returns the element at
index `i`.  `At` only reads the state (it is a function of the state in the
embedding), so size, capacity and elements are left unchanged. -/
theorem at_spec (v : SimpleVector α) (i : Nat) (hwf : v.Wf) :
    (v.At i = AtResult.outOfRange ↔ v.size_ ≤ i) ∧
      (i < v.size_ → v.At i = AtResult.ok (v.items_.getD i default)) := by
  obtain ⟨h1, h2⟩ := hwf
  have hok : ∀ hlt : i < v.size_, v.At i = AtResult.ok (v.items_.getD i default) := by
    intro hlt
    have hil : i < v.items_.length := by omega
    simp only [At, ge_iff_le, if_neg (by omega : ¬ v.size_ ≤ i), List.get?_eq_getElem?,
      List.getElem?_eq_getElem hil, List.getD_eq_getElem v.items_ default hil]
  constructor
  · constructor
    · intro h
      by_contra hge
      push_neg at hge
      rw [hok hge] at h
      exact AtResult.noConfusion h
    · intro h
      simp only [At, ge_iff_le, if_pos h]
  · exact hok

/-- C10: self-assignment: the guard of `operator=` compares the addresses of
the two `items_` members, which coincide exactly for self-assignment, so the
copy branch is skipped and the object is returned unchanged. -/
theorem assign_self_id (v : SimpleVector α) : v.assign v true = some v :=
  rfl

/-- C1 (code bug): `operator==` is the three-iterator `std::equal`, comparing
only the first `lhs.GetSize()` slots and never the sizes: `{1}` compares equal
to `{1, 2}` (obtained from it by appending one element) although the sizes
differ, contradicting the claimed size-and-elements characterisation. -/
theorem opEq_prefix_bug :
    mkInitList ([1] : List Nat) = some ⟨[1], 1, 1⟩ ∧
    PushBack (⟨[1], 1, 1⟩ : SimpleVector Nat) 2 = some ⟨[1, 2], 2, 2⟩ ∧
    vecEq (⟨[1], 1, 1⟩ : SimpleVector Nat) ⟨[1, 2], 2, 2⟩ = some true ∧
    GetSize (⟨[1], 1, 1⟩ : SimpleVector Nat) ≠ GetSize (⟨[1, 2], 2, 2⟩ : SimpleVector Nat) := by
  decide

/-- C2 (code bug): the copy constructor allocates a buffer of
`other.GetSize()` slots but records `other.GetCapacity()` as capacity, so
copying a vector with spare capacity (`{1}` after `Reserve(2)`, a reachable
well-formed state) produces a state whose buffer holds fewer slots than
`capacity_`: the claimed invariant is not preserved. -/
theorem copyCtor_invariant_bug :
    mkInitList ([1] : List Nat) = some ⟨[1], 1, 1⟩ ∧
    Reserve (⟨[1], 1, 1⟩ : SimpleVector Nat) 2 = some ⟨[1, 0], 1, 2⟩ ∧
    Wf (⟨[1, 0], 1, 2⟩ : SimpleVector Nat) ∧
    copyCtor (⟨[1, 0], 1, 2⟩ : SimpleVector Nat) = some ⟨[1], 1, 2⟩ ∧
    ¬ Wf (⟨[1], 1, 2⟩ : SimpleVector Nat) := by
  decide

/-- C3 (counterexample): erasing the middle element of `[1, 2, 3]` (size 3,
capacity 4, reached by three pushes) leaves `GetCapacity() = 4` while the new
size is 2, refuting the claim that after `Erase` the capacity equals the new
size. -/
theorem erase_capacity_cex :
    PushBack (⟨[1, 2], 2, 2⟩ : SimpleVector Nat) 3 = some ⟨[1, 2, 3, 0], 3, 4⟩ ∧
    Erase (⟨[1, 2, 3, 0], 3, 4⟩ : SimpleVector Nat) 1 = some (⟨[1, 3, 0], 2, 4⟩, 1) ∧
    GetSize (⟨[1, 3, 0], 2, 4⟩ : SimpleVector Nat) = 2 ∧
    GetCapacity (⟨[1, 3, 0], 2, 4⟩ : SimpleVector Nat) = 4 := by
  decide

/-- C4 (code bug): in the branch `size < newSize <= capacity`, `Resize` calls
`Fill(end(), end() + new_size)`, default-filling `new_size` slots starting at
index `size` instead of the claimed range `[size, newSize)`: from the
reachable well-formed state with size 2 and capacity 4, `Resize(3)` writes to
index 4, one slot past the 4-slot buffer (undefined behaviour, `none` in the
embedding), where the claim requires success with size 3. -/
theorem resize_fill_oob_bug :
    Resize (⟨[1, 2, 3, 0], 3, 4⟩ : SimpleVector Nat) 2 = some ⟨[1, 2, 3, 0], 2, 4⟩ ∧
    Wf (⟨[1, 2, 3, 0], 2, 4⟩ : SimpleVector Nat) ∧
    Resize (⟨[1, 2, 3, 0], 2, 4⟩ : SimpleVector Nat) 3 = none := by
  decide

/-- C5 (code bug): `Insert` at a documented-valid position is not free of
out-of-bounds accesses: on a full vector of size 1 the `copy_backward` shift
uses the post-resize size and writes one slot past the freshly grown 2-slot
buffer, so the error branch of the total embedding is reachable. -/
theorem insert_oob_bug :
    Wf (⟨[1], 1, 1⟩ : SimpleVector Nat) ∧
    Insert (⟨[1], 1, 1⟩ : SimpleVector Nat) 0 9 = none := by
  decide

/-- C8 (code bug): the insert-erase round trip already fails at the insert:
inserting into an empty vector at `begin() == end()` (a valid position)
performs an out-of-bounds write because the `copy_backward` shift uses the
post-resize size, so the round trip cannot restore the pre-insert content. -/
theorem insert_erase_roundtrip_bug :
    Insert (mkDefault : SimpleVector Nat) 0 7 = none := by
  decide

/-- C9 (code bug): moving `{1}` does hand size, capacity and elements to the
destination and leaves the source empty with zero capacity, but the moved-from
source is not safe for every subsequent operation: `Insert` at `begin()` on it
performs an out-of-bounds write (`none` in the embedding). -/
theorem moved_from_insert_bug :
    moveCtor (⟨[1], 1, 1⟩ : SimpleVector Nat) = (⟨[1], 1, 1⟩, ⟨[0], 0, 0⟩) ∧
    GetSize (⟨[0], 0, 0⟩ : SimpleVector Nat) = 0 ∧
    GetCapacity (⟨[0], 0, 0⟩ : SimpleVector Nat) = 0 ∧
    Insert (⟨[0], 0, 0⟩ : SimpleVector Nat) 0 5 = none := by
  decide

/-- Witness for `erase_amended_spec`: erasing index 1 of the concrete vector
`[1, 2, 3]` with a 4-slot buffer. -/
theorem erase_amended_spec_witness :
    ∃ w, Erase (⟨[1, 2, 3, 0], 3, 4⟩ : SimpleVector Nat) 1 = some (w, 1) ∧
      GetSize w = 2 ∧ GetCapacity w = 4 := by
  obtain ⟨w, hw, hs, hc, _⟩ :=
    erase_amended_spec (⟨[1, 2, 3, 0], 3, 4⟩ : SimpleVector Nat) 1 (by decide) (by decide)
  exact ⟨w, hw, hs, hc⟩

/-- Witness for `pushBack_spec`: pushing 2 onto the concrete vector `[1]`. -/
theorem pushBack_spec_witness :
    ∃ w, PushBack (⟨[1], 1, 1⟩ : SimpleVector Nat) 2 = some w ∧ liveRange w = [1, 2] := by
  obtain ⟨⟨w, hw, _, hl, _⟩, _⟩ := pushBack_spec (⟨[1], 1, 1⟩ : SimpleVector Nat) 2 (by decide)
  refine ⟨w, hw, ?_⟩
  rw [hl]
  rfl

/-- Witness for `at_spec`: both outcomes on the concrete vector `[5]`. -/
theorem at_spec_witness :
    At (⟨[5], 1, 1⟩ : SimpleVector Nat) 0 = AtResult.ok 5 ∧
      At (⟨[5], 1, 1⟩ : SimpleVector Nat) 1 = AtResult.outOfRange := by
  have h0 := at_spec (⟨[5], 1, 1⟩ : SimpleVector Nat) 0 (by decide)
  have h1 := at_spec (⟨[5], 1, 1⟩ : SimpleVector Nat) 1 (by decide)
  exact ⟨h0.2 (by decide), h1.1.mpr (by decide)⟩

end SimpleVector
